import Mathlib

/-!
# Verification of the exam-prep scoring / streak / leaderboard core

Shallow embedding of the behavioural core of the exam-prep application:

* client-side answer scoring (`ExamResults`),
* the server submit route (`POST /api/exams/submit`),
* the streak helper `updateStreak`,
* the shared-exam leaderboard routes,
* the weak-area aggregation route,
* the question-set normaliser `parseQuestions` (`ExamSetup`),
* the dashboard history aggregation,
* the exam-session submit payload (`ExamInterface.handleSubmit`).

JavaScript numbers are modelled over `ℚ` (exact arithmetic); `NaN` results are
modelled as `Option.none`.  JavaScript `Map`/object-keyed state is modelled as
insertion-ordered association lists.  `Array.prototype.sort`, which is stable,
is modelled by `List.mergeSort` (also stable).
-/

namespace ExamPrep

/-- `parseFloat(x.toFixed(2))`: round to 2 decimal places
(ties rounded half-up, as `toFixed` does for the non-negative values
arising here), modelled over exact rationals. -/
def round2 (q : ℚ) : ℚ := (round (q * 100) : ℤ) / 100

/-- Question kind tag, `'single' | 'multi'` in the source. -/
inductive QKind where
  | single
  | multi
deriving DecidableEq, Repr

/-- The internal question model (client `types.ts`, `Question`). -/
structure Question where
  id : String
  question : String
  options : List String
  correctAnswers : List String
  kind : QKind
  explanation : Option String
  topic : Option String
deriving DecidableEq, Repr

/-- One in-session answer record (client `types.ts`, `UserAnswer`). -/
structure UserAnswer where
  questionId : String
  selectedAnswers : List String
  timeSpent : Nat
  flagged : Bool
deriving DecidableEq, Repr

/-- One scored answer as sent to the server by `ExamResults.tsx`
(and as validated by the `submitSchema` of `routes/exams.js`). -/
structure ScoredAnswer where
  questionId : String
  question : String
  selectedAnswers : List String
  correctAnswers : List String
  isCorrect : Bool
  topic : Option String
deriving DecidableEq, Repr

/-- The per-question correctness computation of `ExamResults.tsx` (lines 82-85):
`selected.length === correct.length && selected.every(a => correct.includes(a))
&& correct.every(a => selected.includes(a))`. -/
def jsIsCorrect (selected correct : List String) : Bool :=
  selected.length == correct.length
    && selected.all (fun a => correct.contains a)
    && correct.all (fun a => selected.contains a)

/-- The `results` computation of `ExamResults.tsx` (lines 78-87 and 102-108):
for each exam question, look up the user's answer record by `questionId`
(defaulting to an empty selection) and mark correctness. -/
def scoreAnswers (questions : List Question) (userAnswers : List UserAnswer) :
    List ScoredAnswer :=
  questions.map fun q =>
    let selected :=
      ((userAnswers.find? (fun a => a.questionId == q.id)).map
        (·.selectedAnswers)).getD []
    { questionId := q.id
      question := q.question
      selectedAnswers := selected
      correctAnswers := q.correctAnswers
      isCorrect := jsIsCorrect selected q.correctAnswers
      topic := q.topic }

/-- The aggregate part of the stored `ExamResult` produced by the submit route
(`routes/exams.js` lines 84-98). -/
structure SubmitResult where
  score : Nat
  total : Nat
  percentage : Option ℚ
deriving DecidableEq, Repr

/-- The scoring performed by `POST /api/exams/submit` (`routes/exams.js`
lines 84-86): `score = answers.filter(a => a.isCorrect).length`,
`total = answers.length`,
`percentage = parseFloat(((score / total) * 100).toFixed(2))`.
There is no emptiness check: with `total = 0` the division yields `NaN`,
modelled here as `none`. -/
def submitExam (answers : List ScoredAnswer) : SubmitResult :=
  let score := (answers.filter (·.isCorrect)).length
  let total := answers.length
  { score := score
    total := total
    percentage :=
      if total = 0 then none
      else some (round2 ((score : ℚ) / (total : ℚ) * 100)) }

/-- The validation performed by `handleStart` in `ExamSetup.tsx` on an
already-parsed question list (lines 209-225): an empty title and an empty
question list are rejected.  Shuffling and question-count trimming happen
after these checks and never change acceptance. -/
def handleStartCheck (title : String) (questions : List Question) :
    Except String Unit :=
  if title.trim = "" then .error "Please enter an exam title"
  else if questions.length = 0 then .error "No valid questions found"
  else .ok ()

/-! ## Streak tracking (`routes/exams.js`, `updateStreak`, lines 12-30) -/

/-- A JavaScript `Date`, reduced to what `updateStreak` observes: the calendar
day it falls on (`setHours(0,0,0,0)` normalises to `day`) and the time within
that day (which the day comparisons discard). -/
structure JSDate where
  day : ℤ
  timeOfDay : ℕ
deriving DecidableEq, Repr

/-- The streak-relevant fields of the `User` document
(`models/User.js`: `currentStreak`, `longestStreak`, `lastExamDate`). -/
structure StreakUser where
  currentStreak : ℕ
  longestStreak : ℕ
  lastExamDate : Option JSDate
deriving DecidableEq, Repr

/-- `updateStreak` from `routes/exams.js` lines 12-30.  `todayMidnight` and
`yesterdayMidnight` are the normalised days; `last` is the normalised day of
`lastExamDate` when present.  The schema defaults make `currentStreak` and
`longestStreak` numbers, so the `|| 0` guards in the source are identities
here. -/
def updateStreak (user : StreakUser) (now : JSDate) : StreakUser :=
  let todayMidnight : ℤ := now.day
  let yesterdayMidnight : ℤ := todayMidnight - 1
  let last : Option ℤ := user.lastExamDate.map (·.day)
  let currentStreak : ℕ :=
    match last with
    | none => 1
    | some l =>
      if l < yesterdayMidnight then 1
      else if l = yesterdayMidnight then user.currentStreak + 1
      else user.currentStreak
  { currentStreak := currentStreak
    longestStreak := max user.longestStreak currentStreak
    lastExamDate := some now }

/-! ## Shared-exam leaderboard (`routes/exams.js` lines 239-284) -/

/-- A stored leaderboard entry (`models/SavedExam.js`,
`leaderboardEntrySchema`).  All numeric fields are JS numbers, modelled
over `ℚ`. -/
structure LeaderboardEntry where
  nickname : String
  score : ℚ
  total : ℚ
  percentage : ℚ
  timeTaken : ℚ
deriving DecidableEq, Repr

/-- The sort comparator `(a, b) => b.percentage - a.percentage ||
a.timeTaken - b.timeTaken` of the leaderboard routes, expressed as the
"`a` may come before `b`" relation (comparator result `≤ 0`): percentage
descending, ties by `timeTaken` ascending. -/
def lbLE (a b : LeaderboardEntry) : Bool :=
  decide (b.percentage < a.percentage)
    || (decide (a.percentage = b.percentage) && decide (a.timeTaken ≤ b.timeTaken))

/-- The ranking served by both leaderboard routes: stable sort by `lbLE`,
then `slice(0, 20)`. -/
def rankLeaderboard (entries : List LeaderboardEntry) : List LeaderboardEntry :=
  (entries.mergeSort lbLE).take 20

/-- The request body of `POST /shared/:shareId/score` as the route reads it:
a nickname (JS falsy, i.e. missing or empty, modelled as `""`) and a `score`
field that is `none` unless `typeof score === 'number'`. -/
structure ScoreRequest where
  nickname : String
  score : Option ℚ
  total : ℚ
  percentage : ℚ
  timeTaken : ℚ
deriving DecidableEq, Repr

/-- `POST /shared/:shareId/score` (`routes/exams.js` lines 239-264) against a
found shared exam with stored entry list `stored`: validate, append the new
entry, save, and respond with the capped ranking.  Returns the new stored
list together with the response ranking. -/
def postScore (stored : List LeaderboardEntry) (req : ScoreRequest) :
    Except String (List LeaderboardEntry × List LeaderboardEntry) :=
  if req.nickname = "" then .error "nickname and score are required"
  else
    match req.score with
    | none => .error "nickname and score are required"
    | some s =>
      let stored' := stored ++
        [{ nickname := req.nickname, score := s, total := req.total
           percentage := req.percentage, timeTaken := req.timeTaken }]
      .ok (stored', rankLeaderboard stored')

/-- `GET /shared/:shareId/leaderboard` (`routes/exams.js` lines 267-284):
the same sorted, capped ranking, with no append. -/
def getLeaderboard (stored : List LeaderboardEntry) : List LeaderboardEntry :=
  rankLeaderboard stored

/-! ## Weak-area aggregation (`routes/exams.js` lines 289-332) -/

/-- A stored per-question answer record as the weak-area route reads it
(an element of `ExamResult.answers`). -/
structure AnswerRecord where
  questionId : String
  question : String
  selectedAnswers : List String
  correctAnswers : List String
  isCorrect : Bool
  topic : Option String
deriving DecidableEq, Repr

/-- One accumulator cell of the `stats` object (`routes/exams.js`
lines 298-307). -/
structure QStat where
  question : String
  correctAnswers : List String
  options : List String
  topic : Option String
  wrong : ℕ
  total : ℕ
deriving DecidableEq, Repr

/-- `a.topic || null`: a missing or empty topic becomes `null`. -/
def jsOrNull (t : Option String) : Option String :=
  match t with
  | some s => if s = "" then none else some s
  | none => none

/-- The cell created on first sight of a `questionId`
(`routes/exams.js` lines 299-306): note `options` is initialised to `[]`
and never filled in afterwards. -/
def initStat (a : AnswerRecord) : QStat :=
  { question := a.question
    correctAnswers := a.correctAnswers
    options := []
    topic := jsOrNull a.topic
    wrong := 0
    total := 0 }

/-- The per-record accumulation (`routes/exams.js` lines 308-309):
`stats[id].total++; if (!a.isCorrect) stats[id].wrong++`. -/
def bumpStat (s : QStat) (a : AnswerRecord) : QStat :=
  { s with
    total := s.total + 1
    wrong := if a.isCorrect then s.wrong else s.wrong + 1 }

/-- Process one answer record into the `stats` object, modelled as an
insertion-ordered association list: bump the existing cell, or create and
bump a fresh cell at the end (new object properties are appended). -/
def insertAnswer : List (String × QStat) → AnswerRecord → List (String × QStat)
  | [], a => [(a.questionId, bumpStat (initStat a) a)]
  | (k, s) :: rest, a =>
    if k = a.questionId then (k, bumpStat s a) :: rest
    else (k, s) :: insertAnswer rest a

/-- The full `stats` object built by the nested loops of the route over the
user's flattened answer history (`routes/exams.js` lines 295-311). -/
def groupStats (history : List AnswerRecord) : List (String × QStat) :=
  history.foldl insertAnswer []

/-- One emitted weak-area entry (`routes/exams.js` lines 315-323). -/
structure WeakArea where
  questionId : String
  question : String
  correctAnswers : List String
  options : List String
  topic : Option String
  timesAttempted : ℕ
  userAccuracy : ℚ
deriving DecidableEq, Repr

/-- The filter `s.total >= 2 && s.wrong / s.total > 0.4`
(`routes/exams.js` line 314). -/
def weakQualifies (s : QStat) : Bool :=
  2 ≤ s.total && decide ((2 : ℚ) / 5 < (s.wrong : ℚ) / (s.total : ℚ))

/-- The map step (`routes/exams.js` lines 315-323), including
`userAccuracy = parseFloat((1 - s.wrong / s.total).toFixed(2))`. -/
def mkWeakArea (p : String × QStat) : WeakArea :=
  { questionId := p.1
    question := p.2.question
    correctAnswers := p.2.correctAnswers
    options := p.2.options
    topic := p.2.topic
    timesAttempted := p.2.total
    userAccuracy := round2 (1 - (p.2.wrong : ℚ) / (p.2.total : ℚ)) }

/-- The sort comparator `(a, b) => a.userAccuracy - b.userAccuracy` as the
"may come before" relation: ascending accuracy. -/
def weakLE (a b : WeakArea) : Bool :=
  decide (a.userAccuracy ≤ b.userAccuracy)

/-- The filtered, mapped entry list in grouping (first-seen) order, before
sorting (`routes/exams.js` lines 313-323). -/
def weakEntries (history : List AnswerRecord) : List WeakArea :=
  ((groupStats history).filter (fun p => weakQualifies p.2)).map mkWeakArea

/-- `GET /api/exams/weak-areas` (`routes/exams.js` lines 313-325): filter,
map, stable sort ascending by `userAccuracy`, `slice(0, 30)`. -/
def weakAreas (history : List AnswerRecord) : List WeakArea :=
  ((weakEntries history).mergeSort weakLE).take 30

/-! ## QuestionSet normaliser (`ExamSetup.tsx`, `parseQuestions`,
lines 103-133) -/

/-- One loosely-typed pasted record.  `question` collapses the JS falsy cases
(missing or `""`) to `""`; `options` is `none` when absent or not an array;
`correctAnswers` is `none` when not an array; `id` and `correctAnswer` keep
their raw string (the source tests them for falsiness, so `""` behaves like
absent). -/
structure RawQuestion where
  id : Option String
  question : String
  options : Option (List String)
  correctAnswer : Option String
  correctAnswers : Option (List String)
  explanation : Option String
  topic : Option String
deriving DecidableEq, Repr

/-- `Array.isArray(q.correctAnswers) ? q.correctAnswers
: q.correctAnswer ? [q.correctAnswer] : []` (lines 112-116). -/
def resolveCorrect (q : RawQuestion) : List String :=
  match q.correctAnswers with
  | some l => l
  | none =>
    match q.correctAnswer with
    | some s => if s = "" then [] else [s]
    | none => []

/-- `q.id || "q_" + (i + 1)` (line 122). -/
def resolveId (i : ℕ) (q : RawQuestion) : String :=
  match q.id with
  | some s => if s = "" then "q_" ++ toString (i + 1) else s
  | none => "q_" ++ toString (i + 1)

/-- Normalise the record at 0-based index `i`
(`ExamSetup.tsx` lines 108-132). -/
def parseQuestion (i : ℕ) (q : RawQuestion) : Except String Question :=
  if q.question = "" then .error ("Invalid question at index " ++ toString i)
  else
    match q.options with
    | none => .error ("Invalid question at index " ++ toString i)
    | some opts =>
      let correctAnswers := resolveCorrect q
      if correctAnswers.length = 0 then
        .error ("No correct answer for question " ++ toString (i + 1))
      else
        .ok { id := resolveId i q
              question := q.question
              options := opts
              correctAnswers := correctAnswers
              kind := if correctAnswers.length > 1 then .multi else .single
              explanation := q.explanation
              topic := q.topic }

/-- The indexed traversal underlying `parsed.map((q, i) => ...)`: the first
thrown error aborts the whole batch. -/
def parseQuestionsFrom : ℕ → List RawQuestion → Except String (List Question)
  | _, [] => .ok []
  | i, q :: rest =>
    match parseQuestion i q with
    | .error e => .error e
    | .ok pq =>
      match parseQuestionsFrom (i + 1) rest with
      | .error e => .error e
      | .ok rest' => .ok (pq :: rest')

/-- `parseQuestions` from `ExamSetup.tsx` lines 103-133 (after the
`Array.isArray` check on the whole payload). -/
def parseQuestions (raw : List RawQuestion) : Except String (List Question) :=
  parseQuestionsFrom 0 raw

/-- A record passes normalisation iff its question text is non-empty, its
`options` field is an array (emptiness of that array is not checked by the
source), and the resolved correct-answer list is non-empty. -/
def rawWellFormed (q : RawQuestion) : Bool :=
  !(q.question == "") && q.options.isSome && !(resolveCorrect q).isEmpty

/-- The error message `parseQuestion` produces for a malformed record at
0-based index `i`. -/
def rawErrorMsg (i : ℕ) (q : RawQuestion) : String :=
  if q.question = "" ∨ q.options = none then
    "Invalid question at index " ++ toString i
  else "No correct answer for question " ++ toString (i + 1)

/-! ## Dashboard history aggregation (`Dashboard.tsx` lines 99-110) -/

/-- A history list item as the dashboard reads it. -/
structure HistoryItem where
  percentage : ℚ
  timeTaken : ℚ
deriving DecidableEq, Repr

/-- The four derived statistics. -/
structure DashStats where
  totalExams : ℕ
  avgScore : ℤ
  bestScore : ℚ
  totalTime : ℚ
deriving DecidableEq, Repr

/-- The derived stats of `Dashboard.tsx` lines 99-107:
`totalExams = history.length`;
`avgScore = totalExams ? Math.round(sum / totalExams) : 0`;
`totalTime = reduce(+timeTaken, 0)`;
`bestScore = totalExams ? Math.max(...percentages) : 0`. -/
def dashboardStats (history : List HistoryItem) : DashStats :=
  { totalExams := history.length
    avgScore :=
      if history.length = 0 then 0
      else round ((history.foldl (fun acc h => acc + h.percentage) 0)
        / (history.length : ℚ))
    bestScore :=
      match history with
      | [] => 0
      | h :: t => t.foldl (fun m x => max m x.percentage) h.percentage
    totalTime := history.foldl (fun acc h => acc + h.timeTaken) 0 }

/-! ## Exam session submit payload (`ExamInterface.tsx`) -/

/-- Replace the value at a key of a JS `Map`, or append a new entry
(`Map.prototype.set` keeps insertion order). -/
def mapSet {α : Type} : List (String × α) → String → α → List (String × α)
  | [], k, v => [(k, v)]
  | (k', v') :: rest, k, v =>
    if k' = k then (k, v) :: rest else (k', v') :: mapSet rest k v

/-- `Map.prototype.get`. -/
def mapGet {α : Type} (m : List (String × α)) (k : String) : Option α :=
  (m.find? (fun p => p.1 == k)).map (·.2)

/-- The in-session mutations of `ExamInterface.tsx` that touch the submit
payload: `handleAnswerChange` (lines 82-91), the accumulation step of
`flushCurrentTime` (lines 40-51, which only writes when `elapsed > 0`),
and `toggleFlag` (lines 70-80). -/
inductive SessionEvent where
  | select (qid : String) (selected : List String)
  | flushTime (qid : String) (elapsed : ℕ)
  | toggleFlag (qid : String)
deriving DecidableEq, Repr

/-- The component state read by `handleSubmit`: the `answers` map, the
`questionTimes` map, and the `flagged` set (its JS `Set` modelled as a
duplicate-free insertion-ordered list). -/
structure SessionState where
  answers : List (String × List String)
  questionTimes : List (String × ℕ)
  flagged : List String
deriving DecidableEq, Repr

/-- One state update. -/
def sessionStep (st : SessionState) : SessionEvent → SessionState
  | .select qid sel => { st with answers := mapSet st.answers qid sel }
  | .flushTime qid elapsed =>
    if 0 < elapsed then
      let newTime := (mapGet st.questionTimes qid).getD 0 + elapsed
      { st with questionTimes := mapSet st.questionTimes qid newTime }
    else st
  | .toggleFlag qid =>
    if st.flagged.contains qid then
      { st with flagged := st.flagged.filter (fun x => ¬(x = qid)) }
    else { st with flagged := st.flagged ++ [qid] }

/-- The state after a sequence of in-session interactions, starting from the
initial empty maps and set. -/
def runSession (events : List SessionEvent) : SessionState :=
  events.foldl sessionStep { answers := [], questionTimes := [], flagged := [] }

/-- `handleSubmit` of `ExamInterface.tsx` lines 162-171: one record per exam
question, in exam order, defaulting to `[]` / `0` / `false`. -/
def handleSubmit (questions : List Question) (st : SessionState) :
    List UserAnswer :=
  questions.map fun q =>
    { questionId := q.id
      selectedAnswers := (mapGet st.answers q.id).getD []
      timeSpent := (mapGet st.questionTimes q.id).getD 0
      flagged := st.flagged.contains q.id }

/-- Whether an interaction targets the question id `qid`. -/
def touches (qid : String) : SessionEvent → Bool
  | .select k _ => k == qid
  | .flushTime k _ => k == qid
  | .toggleFlag k => k == qid

/-! ## Concrete fixtures (the end-to-end scenario of spec §8) -/

/-- The two-question exam of the spec's end-to-end scenario: Q1 single-select
with correct answer `A`, Q2 multi-select with correct set `{B, C}`. -/
def scenarioQuestions : List Question :=
  [ { id := "q1", question := "Q1", options := ["A", "B"]
      correctAnswers := ["A"], kind := .single
      explanation := none, topic := none }
  , { id := "q2", question := "Q2", options := ["A", "B", "C"]
      correctAnswers := ["B", "C"], kind := .multi
      explanation := none, topic := none } ]

/-- The scenario attempt: Q1 = `{A}`, Q2 = `{B}`. -/
def scenarioAnswers : List UserAnswer :=
  [ { questionId := "q1", selectedAnswers := ["A"], timeSpent := 5, flagged := false }
  , { questionId := "q2", selectedAnswers := ["B"], timeSpent := 7, flagged := true } ]

/-- The stored leaderboard of the spec's ranking example:
`[{p:80,t:50},{p:90,t:100}]` before the new submission arrives. -/
def exampleStored : List LeaderboardEntry :=
  [ { nickname := "ann", score := 8, total := 10, percentage := 80, timeTaken := 50 }
  , { nickname := "bob", score := 9, total := 10, percentage := 90, timeTaken := 100 } ]

/-- The spec example's new submission: `{p:90,t:60}`, valid nickname and
numeric score. -/
def exampleReq : ScoreRequest :=
  { nickname := "cid", score := some 9, total := 10, percentage := 90, timeTaken := 60 }

/-- A history realising the spec's weak-area example: `q1` attempted 5 times
with 3 wrong (qualifies, accuracy 0.40) and `q2` attempted once, wrong
(excluded by the attempts ≥ 2 threshold). -/
def exampleHistory : List AnswerRecord :=
  [ { questionId := "q1", question := "Q1", selectedAnswers := ["B"]
      correctAnswers := ["A"], isCorrect := false, topic := some "t" }
  , { questionId := "q1", question := "Q1", selectedAnswers := ["A"]
      correctAnswers := ["A"], isCorrect := true, topic := some "t" }
  , { questionId := "q1", question := "Q1", selectedAnswers := ["C"]
      correctAnswers := ["A"], isCorrect := false, topic := some "t" }
  , { questionId := "q1", question := "Q1", selectedAnswers := ["A"]
      correctAnswers := ["A"], isCorrect := true, topic := some "t" }
  , { questionId := "q1", question := "Q1", selectedAnswers := ["B"]
      correctAnswers := ["A"], isCorrect := false, topic := some "t" }
  , { questionId := "q2", question := "Q2", selectedAnswers := []
      correctAnswers := ["X"], isCorrect := false, topic := none } ]

/-- Two stats cells carrying the same question metadata (text, correct
answers, options, topic); the count fields may differ. -/
def sameMeta (s t : QStat) : Prop :=
  s.question = t.question ∧ s.correctAnswers = t.correctAnswers
    ∧ s.options = t.options ∧ s.topic = t.topic

/-- A first answer record for question `q1`, with its original metadata. -/
def firstRecord : AnswerRecord :=
  { questionId := "q1", question := "OLD", selectedAnswers := []
    correctAnswers := ["A"], isCorrect := false, topic := some "t1" }

/-- A later answer record for the same `q1` after its metadata was edited. -/
def editedRecord : AnswerRecord :=
  { questionId := "q1", question := "NEW", selectedAnswers := []
    correctAnswers := ["B"], isCorrect := false, topic := some "t2" }

/-- A well-formed pasted record. -/
def goodRaw : RawQuestion :=
  { id := none, question := "What is HTML?", options := some ["A", "B"]
    correctAnswer := some "A", correctAnswers := none
    explanation := none, topic := none }

/-- A malformed pasted record: neither `correctAnswer` nor `correctAnswers`
resolves to a non-empty set. -/
def badRaw : RawQuestion :=
  { id := none, question := "No answer here", options := some ["A", "B"]
    correctAnswer := none, correctAnswers := none
    explanation := none, topic := none }

/-- A concrete dashboard history with two past results. -/
def exampleDashHistory : List HistoryItem :=
  [ { percentage := 80, timeTaken := 60 }
  , { percentage := 90, timeTaken := 45 } ]

/-- A 31-character nickname (one character beyond the claimed 30-character
limit). -/
def longNickname : String := "abcdefghijklmnopqrstuvwxyz01234"

/-- A concrete interaction sequence that only ever touches question `q1`. -/
def exampleEvents : List SessionEvent :=
  [ .select "q1" ["A"], .flushTime "q1" 5, .toggleFlag "q1" ]

/-! # Theorems -/

/-- `List.contains` is list membership (for `String`, whose `BEq` is
lawful). -/
theorem contains_true_iff {l : List String} {a : String} :
    l.contains a = true ↔ a ∈ l := by
  simp [List.contains, List.elem_iff]

/-- `jsIsCorrect` decides exact set equality of the selection against the
correct-answer list, for duplicate-free lists (as produced by the option
toggles and the normaliser on set-like data). -/
theorem jsIsCorrect_iff_toFinset {selected correct : List String}
    (hs : selected.Nodup) (hc : correct.Nodup) :
    jsIsCorrect selected correct = true ↔
      selected.toFinset = correct.toFinset := by
  simp only [jsIsCorrect, Bool.and_eq_true, beq_iff_eq, List.all_eq_true,
    contains_true_iff]
  constructor
  · rintro ⟨⟨_, h1⟩, h2⟩
    apply Finset.ext
    intro x
    simp only [List.mem_toFinset]
    exact ⟨fun hx => h1 x hx, fun hx => h2 x hx⟩
  · intro h
    have hmem : ∀ x, x ∈ selected ↔ x ∈ correct := by
      intro x
      rw [← List.mem_toFinset, h, List.mem_toFinset]
    refine ⟨⟨?_, fun x hx => (hmem x).mp hx⟩, fun x hx => (hmem x).mpr hx⟩
    rw [← List.toFinset_card_of_nodup hs, ← List.toFinset_card_of_nodup hc, h]

/-- An empty selection never scores correct against a non-empty
correct-answer list. -/
theorem jsIsCorrect_nil {correct : List String} (h : correct ≠ []) :
    jsIsCorrect [] correct = false := by
  cases correct with
  | nil => exact absurd rfl h
  | cons c t => simp [jsIsCorrect]

/-- Every scored answer arises from an exam question, with the selection
taken from the attempt (or `[]`). -/
theorem mem_scoreAnswers {questions : List Question}
    {userAnswers : List UserAnswer} {a : ScoredAnswer}
    (h : a ∈ scoreAnswers questions userAnswers) :
    ∃ q ∈ questions,
      a.correctAnswers = q.correctAnswers
      ∧ a.isCorrect = jsIsCorrect a.selectedAnswers q.correctAnswers
      ∧ (a.selectedAnswers = [] ∨
          ∃ ua ∈ userAnswers, a.selectedAnswers = ua.selectedAnswers) := by
  simp only [scoreAnswers, List.mem_map] at h
  obtain ⟨q, hq, rfl⟩ := h
  refine ⟨q, hq, rfl, rfl, ?_⟩
  cases hfind : userAnswers.find? (fun a => a.questionId == q.id) with
  | none => left; simp [hfind]
  | some ua =>
    right
    exact ⟨ua, List.mem_of_find?_eq_some hfind, by simp [hfind]⟩

/-- C1: for every finalized attempt against a non-empty exam (with set-like,
duplicate-free selections and correct-answer lists), a question is marked
correct iff the selection equals the correct-answer set exactly; an empty
selection against a non-empty correct set is incorrect; the submitted score
counts the correct marks and satisfies `0 ≤ score ≤ total`; and the stored
percentage is `score / total * 100` rounded to 2 decimal places. -/
theorem scoring_engine_spec (questions : List Question)
    (userAnswers : List UserAnswer)
    (hq : questions ≠ [])
    (hqn : ∀ q ∈ questions, q.correctAnswers.Nodup)
    (hun : ∀ a ∈ userAnswers, a.selectedAnswers.Nodup) :
    (∀ a ∈ scoreAnswers questions userAnswers,
      (a.isCorrect = true ↔ a.selectedAnswers.toFinset = a.correctAnswers.toFinset)
      ∧ (a.correctAnswers ≠ [] → a.selectedAnswers = [] → a.isCorrect = false))
    ∧ (submitExam (scoreAnswers questions userAnswers)).score
        = ((scoreAnswers questions userAnswers).filter (·.isCorrect)).length
    ∧ (submitExam (scoreAnswers questions userAnswers)).score
        ≤ (submitExam (scoreAnswers questions userAnswers)).total
    ∧ (submitExam (scoreAnswers questions userAnswers)).total = questions.length
    ∧ (submitExam (scoreAnswers questions userAnswers)).percentage
        = some (round2
            (((submitExam (scoreAnswers questions userAnswers)).score : ℚ)
              / ((submitExam (scoreAnswers questions userAnswers)).total : ℚ)
              * 100)) := by
  have hlen : (scoreAnswers questions userAnswers).length = questions.length := by
    simp [scoreAnswers]
  refine ⟨?_, rfl, ?_, hlen, ?_⟩
  · intro a ha
    obtain ⟨q, hqmem, hca, hic, hsel⟩ := mem_scoreAnswers ha
    have hnodupSel : a.selectedAnswers.Nodup := by
      rcases hsel with h | ⟨ua, hua, h⟩
      · simp [h]
      · rw [h]; exact hun ua hua
    constructor
    · rw [hic, hca]
      exact jsIsCorrect_iff_toFinset hnodupSel (hqn q hqmem)
    · intro hcne hselnil
      rw [hic, hselnil]
      exact jsIsCorrect_nil (hca ▸ hcne)
  · simpa [submitExam] using
      List.length_filter_le (·.isCorrect) (scoreAnswers questions userAnswers)
  · have hne : (scoreAnswers questions userAnswers).length ≠ 0 := by
      rw [hlen]
      simpa using hq
    simp [submitExam, hne]

/-- Witness for C1 at the spec's end-to-end scenario (§8): the hypotheses
hold and the conclusion follows at the two-question exam. -/
theorem scoring_engine_spec_witness :
    (scenarioQuestions ≠ []
      ∧ (∀ q ∈ scenarioQuestions, q.correctAnswers.Nodup)
      ∧ (∀ a ∈ scenarioAnswers, a.selectedAnswers.Nodup))
    ∧ ((∀ a ∈ scoreAnswers scenarioQuestions scenarioAnswers,
        (a.isCorrect = true ↔
          a.selectedAnswers.toFinset = a.correctAnswers.toFinset)
        ∧ (a.correctAnswers ≠ [] → a.selectedAnswers = [] → a.isCorrect = false))
      ∧ (submitExam (scoreAnswers scenarioQuestions scenarioAnswers)).score
          = ((scoreAnswers scenarioQuestions scenarioAnswers).filter
              (·.isCorrect)).length
      ∧ (submitExam (scoreAnswers scenarioQuestions scenarioAnswers)).score
          ≤ (submitExam (scoreAnswers scenarioQuestions scenarioAnswers)).total
      ∧ (submitExam (scoreAnswers scenarioQuestions scenarioAnswers)).total
          = scenarioQuestions.length
      ∧ (submitExam (scoreAnswers scenarioQuestions scenarioAnswers)).percentage
          = some (round2
              (((submitExam (scoreAnswers scenarioQuestions scenarioAnswers)).score : ℚ)
                / ((submitExam (scoreAnswers scenarioQuestions scenarioAnswers)).total : ℚ)
                * 100))) :=
  ⟨⟨by decide, by decide, by decide⟩,
    scoring_engine_spec scenarioQuestions scenarioAnswers
      (by decide) (by decide) (by decide)⟩

/-- C5 counterexample: scoring an attempt with an empty question set does not
fail — the submit route accepts an empty answers list and produces an
`ExamResult` with `score = 0`, `total = 0` and a `NaN` percentage (`none`),
refuting both "fails with `EmptyExamError`" and "no ExamResult is produced
for an empty question set". -/
theorem submit_empty_produces_result :
    submitExam [] = { score := 0, total := 0, percentage := none } := rfl

/-- C5 as amended: starting an attempt with zero questions is always rejected
by the setup validation (with an error message, not a distinct
`EmptyExamError`), but the scoring path itself does not fail on an empty
question set: it accepts the submission and stores `score = 0`, `total = 0`
and an undefined (`NaN`) percentage. -/
theorem empty_exam_check (title : String) :
    handleStartCheck title [] ≠ .ok ()
    ∧ (submitExam []).percentage = none
    ∧ (submitExam []).score = 0 ∧ (submitExam []).total = 0 := by
  refine ⟨?_, rfl, rfl, rfl⟩
  simp only [handleStartCheck]
  split
  · simp
  · simp

/-- C2: for a submission at instant `now` with `lastExamDate ≤ now`, the
streak update sets `currentStreak` to 1 when the last activity day is absent
or earlier than yesterday, increments it when the last activity day is
yesterday, leaves it unchanged when the last activity day is today, and then
sets `longestStreak` to the max of the old longest and the new current streak
and stamps `lastExamDate` with `now`. -/
theorem updateStreak_spec (user : StreakUser) (now : JSDate)
    (_hle : ∀ d, user.lastExamDate = some d → d.day ≤ now.day) :
    (user.lastExamDate = none → (updateStreak user now).currentStreak = 1)
    ∧ (∀ d, user.lastExamDate = some d → d.day < now.day - 1 →
        (updateStreak user now).currentStreak = 1)
    ∧ (∀ d, user.lastExamDate = some d → d.day = now.day - 1 →
        (updateStreak user now).currentStreak = user.currentStreak + 1)
    ∧ (∀ d, user.lastExamDate = some d → d.day = now.day →
        (updateStreak user now).currentStreak = user.currentStreak)
    ∧ (updateStreak user now).longestStreak
        = max user.longestStreak (updateStreak user now).currentStreak
    ∧ (updateStreak user now).lastExamDate = some now := by
  refine ⟨?_, ?_, ?_, ?_, rfl, rfl⟩
  · intro h0
    simp [updateStreak, h0]
  · intro d hd hlt
    simp [updateStreak, hd, hlt]
  · intro d hd heq
    have h1 : ¬(d.day < now.day - 1) := by omega
    simp [updateStreak, hd, h1, heq]
  · intro d hd heq
    have h1 : ¬(d.day < now.day - 1) := by omega
    have h2 : ¬(d.day = now.day - 1) := by omega
    simp [updateStreak, hd, h1, h2]

/-- Witness for C2: last activity yesterday (day 9, submitting on day 10)
with `currentStreak = 3` yields `currentStreak = 4`; the spec's continuation
example. -/
theorem updateStreak_spec_witness :
    (∀ d, (some (JSDate.mk 9 13) : Option JSDate) = some d → d.day ≤ (10 : ℤ))
    ∧ (updateStreak
        { currentStreak := 3, longestStreak := 5
          lastExamDate := some (JSDate.mk 9 13) }
        (JSDate.mk 10 8)).currentStreak = 3 + 1 :=
  ⟨by intro d hd; cases hd; decide,
    (updateStreak_spec
      { currentStreak := 3, longestStreak := 5
        lastExamDate := some (JSDate.mk 9 13) }
      (JSDate.mk 10 8)
      (by intro d hd; cases hd; decide)).2.2.1
      (JSDate.mk 9 13) rfl (by decide)⟩

/-- The leaderboard comparator relation is transitive. -/
theorem lbLE_trans (a b c : LeaderboardEntry) :
    lbLE a b → lbLE b c → lbLE a c := by
  simp only [lbLE, Bool.or_eq_true, Bool.and_eq_true, decide_eq_true_eq]
  rintro (h1 | ⟨h1, h1'⟩) (h2 | ⟨h2, h2'⟩)
  · exact Or.inl (h2.trans h1)
  · exact Or.inl (h2 ▸ h1)
  · exact Or.inl (h1 ▸ h2)
  · exact Or.inr ⟨h1.trans h2, h1'.trans h2'⟩

/-- The leaderboard comparator relation is total. -/
theorem lbLE_total (a b : LeaderboardEntry) : lbLE a b || lbLE b a := by
  simp only [lbLE, Bool.or_eq_true, Bool.and_eq_true, decide_eq_true_eq]
  rcases lt_trichotomy a.percentage b.percentage with h | h | h
  · exact Or.inr (Or.inl h)
  · rcases le_total a.timeTaken b.timeTaken with ht | ht
    · exact Or.inl (Or.inr ⟨h, ht⟩)
    · exact Or.inr (Or.inr ⟨h.symm, ht⟩)
  · exact Or.inl (Or.inl h)

/-- The Boolean comparator agrees with the spec's ordering: percentage
descending, ties broken by `timeTaken` ascending. -/
theorem lbLE_iff (a b : LeaderboardEntry) :
    lbLE a b = true ↔
      b.percentage < a.percentage
      ∨ (a.percentage = b.percentage ∧ a.timeTaken ≤ b.timeTaken) := by
  simp [lbLE]

/-- Every ranking the leaderboard routes serve: at most 20 entries, sorted by
percentage descending with ties by `timeTaken` ascending, and equal to a
20-entry truncation of some sorted rearrangement of the full stored list. -/
theorem getLeaderboard_spec (stored : List LeaderboardEntry) :
    (getLeaderboard stored).length ≤ 20
    ∧ (getLeaderboard stored).Pairwise (fun a b =>
        b.percentage < a.percentage
        ∨ (a.percentage = b.percentage ∧ a.timeTaken ≤ b.timeTaken))
    ∧ ∃ rest,
        List.Perm (getLeaderboard stored ++ rest) stored
        ∧ (getLeaderboard stored ++ rest).Pairwise (fun a b =>
            b.percentage < a.percentage
            ∨ (a.percentage = b.percentage ∧ a.timeTaken ≤ b.timeTaken))
        ∧ getLeaderboard stored = (getLeaderboard stored ++ rest).take 20 := by
  have hsorted : (stored.mergeSort lbLE).Pairwise (fun a b => lbLE a b) :=
    List.sorted_mergeSort lbLE_trans lbLE_total stored
  have hsorted' : (stored.mergeSort lbLE).Pairwise (fun a b =>
      b.percentage < a.percentage
      ∨ (a.percentage = b.percentage ∧ a.timeTaken ≤ b.timeTaken)) :=
    hsorted.imp (fun h => (lbLE_iff _ _).mp h)
  have hgl : getLeaderboard stored = (stored.mergeSort lbLE).take 20 := rfl
  refine ⟨?_, ?_, (stored.mergeSort lbLE).drop 20, ?_, ?_, ?_⟩
  · rw [hgl, List.length_take]
    exact min_le_left _ _
  · rw [hgl]
    exact hsorted'.sublist (List.take_sublist 20 _)
  · rw [hgl, List.take_append_drop]
    exact List.mergeSort_perm stored lbLE
  · rw [hgl, List.take_append_drop]
    exact hsorted'
  · rw [hgl, List.take_append_drop]

/-- C3: a score submission with empty nickname or non-numeric score fails
with the validation error; a valid submission appends the entry to the stored
list (keeping the full uncapped list in storage) and returns exactly the
read-only ranking of the new stored list; and every served ranking is the
sorted (percentage descending, `timeTaken` ascending on ties) truncation to
at most 20 entries of the full stored list. -/
theorem leaderboard_routes_spec (stored : List LeaderboardEntry)
    (req : ScoreRequest) :
    (req.nickname = "" ∨ req.score = none →
      postScore stored req = .error "nickname and score are required")
    ∧ (∀ s, req.nickname ≠ "" → req.score = some s →
        postScore stored req =
          .ok (stored ++ [{ nickname := req.nickname, score := s
                            total := req.total, percentage := req.percentage
                            timeTaken := req.timeTaken }],
            getLeaderboard (stored ++ [{ nickname := req.nickname, score := s
                                         total := req.total
                                         percentage := req.percentage
                                         timeTaken := req.timeTaken }])))
    ∧ (getLeaderboard stored).length ≤ 20
    ∧ (getLeaderboard stored).Pairwise (fun a b =>
        b.percentage < a.percentage
        ∨ (a.percentage = b.percentage ∧ a.timeTaken ≤ b.timeTaken))
    ∧ ∃ rest,
        List.Perm (getLeaderboard stored ++ rest) stored
        ∧ (getLeaderboard stored ++ rest).Pairwise (fun a b =>
            b.percentage < a.percentage
            ∨ (a.percentage = b.percentage ∧ a.timeTaken ≤ b.timeTaken))
        ∧ getLeaderboard stored = (getLeaderboard stored ++ rest).take 20 := by
  obtain ⟨h1, h2, h3⟩ := getLeaderboard_spec stored
  refine ⟨?_, ?_, h1, h2, h3⟩
  · rintro (h | h)
    · simp [postScore, h]
    · by_cases hn : req.nickname = ""
      · simp [postScore, hn]
      · simp [postScore, hn, h]
  · intro s hn hs
    simp [postScore, hn, hs, getLeaderboard]

/-- Witness for C3 at the spec's ranking example: the new `{p:90,t:60}` entry
is appended to storage and the served ranking is the ranking of the enlarged
stored list. -/
theorem leaderboard_routes_spec_witness :
    exampleReq.nickname ≠ ""
    ∧ postScore exampleStored exampleReq =
        .ok (exampleStored ++ [{ nickname := "cid", score := 9, total := 10
                                 percentage := 90, timeTaken := 60 }],
          getLeaderboard (exampleStored ++
            [{ nickname := "cid", score := 9, total := 10
               percentage := 90, timeTaken := 60 }])) :=
  ⟨by decide,
    (leaderboard_routes_spec exampleStored exampleReq).2.1 9 (by decide) rfl⟩

/-- The weak-area comparator is transitive. -/
theorem weakLE_trans (a b c : WeakArea) :
    weakLE a b → weakLE b c → weakLE a c := by
  simp only [weakLE, decide_eq_true_eq]
  exact le_trans

/-- The weak-area comparator is total. -/
theorem weakLE_total (a b : WeakArea) : weakLE a b || weakLE b a := by
  simp only [weakLE, Bool.or_eq_true, decide_eq_true_eq]
  exact le_total _ _

/-- Every pre-sort weak-area entry comes from a qualifying stats cell:
attempts at least 2 and wrong rate strictly above 0.4. -/
theorem mem_weakEntries {history : List AnswerRecord} {w : WeakArea}
    (h : w ∈ weakEntries history) :
    ∃ p ∈ groupStats history,
      2 ≤ p.2.total
      ∧ (2 : ℚ) / 5 < (p.2.wrong : ℚ) / (p.2.total : ℚ)
      ∧ w = mkWeakArea p := by
  simp only [weakEntries, List.mem_map, List.mem_filter] at h
  obtain ⟨p, ⟨hp, hq⟩, rfl⟩ := h
  simp only [weakQualifies, Bool.and_eq_true, decide_eq_true_eq] at hq
  exact ⟨p, hp, hq.1, hq.2, rfl⟩

/-- C4: the weak-area output has at most 30 entries, is sorted ascending by
`userAccuracy`, contains only questions grouped with attempts ≥ 2 and wrong
rate > 0.4 whose `userAccuracy` is `1 - wrongCount/attempts` rounded to 2
decimal places, contains all such questions whenever at most 30 qualify, and
the sort is stable: entries tied on `userAccuracy` keep their original
grouping order. -/
theorem weakAreas_spec (history : List AnswerRecord) :
    (weakAreas history).length ≤ 30
    ∧ (weakAreas history).Pairwise (fun a b => a.userAccuracy ≤ b.userAccuracy)
    ∧ (∀ w ∈ weakAreas history, ∃ p ∈ groupStats history,
        2 ≤ p.2.total
        ∧ (2 : ℚ) / 5 < (p.2.wrong : ℚ) / (p.2.total : ℚ)
        ∧ w = mkWeakArea p
        ∧ w.userAccuracy = round2 (1 - (p.2.wrong : ℚ) / (p.2.total : ℚ))
        ∧ w.timesAttempted = p.2.total)
    ∧ ((weakEntries history).length ≤ 30 →
        List.Perm (weakAreas history) (weakEntries history))
    ∧ (∀ a b : WeakArea, a.userAccuracy = b.userAccuracy →
        List.Sublist [a, b] (weakEntries history) →
        List.Sublist [a, b] ((weakEntries history).mergeSort weakLE)) := by
  have hsorted : ((weakEntries history).mergeSort weakLE).Pairwise
      (fun a b => weakLE a b) :=
    List.sorted_mergeSort weakLE_trans weakLE_total (weakEntries history)
  refine ⟨?_, ?_, ?_, ?_, ?_⟩
  · rw [weakAreas, List.length_take]
    exact min_le_left _ _
  · exact (hsorted.imp (fun h => by simpa [weakLE] using h)).sublist
      (List.take_sublist 30 _)
  · intro w hw
    have hw' : w ∈ weakEntries history := by
      have := List.take_sublist 30 ((weakEntries history).mergeSort weakLE)
      have hmem := this.mem hw
      exact List.mem_mergeSort.mp hmem
    obtain ⟨p, hp, h2, h4, rfl⟩ := mem_weakEntries hw'
    exact ⟨p, hp, h2, h4, rfl, rfl, rfl⟩
  · intro hlen
    rw [weakAreas, List.take_of_length_le (by simpa using hlen)]
    exact List.mergeSort_perm _ _
  · intro a b heq hsub
    exact List.pair_sublist_mergeSort weakLE_trans weakLE_total
      (by simp [weakLE, heq]) hsub

/-- Witness for C4 at the spec's weak-area example history: at most 30
entries qualify, so the output is a permutation of the full qualifying
entry list. -/
theorem weakAreas_spec_witness :
    (weakEntries exampleHistory).length ≤ 30
    ∧ List.Perm (weakAreas exampleHistory) (weakEntries exampleHistory) := by
  have hlen : (weakEntries exampleHistory).length ≤ 30 := by
    have hfil : (weakEntries exampleHistory).length
        ≤ (groupStats exampleHistory).length := by
      rw [weakEntries, List.length_map]
      exact List.length_filter_le _ _
    have hg : (groupStats exampleHistory).length = 2 := by decide
    omega
  exact ⟨hlen, (weakAreas_spec exampleHistory).2.2.2.1 hlen⟩

/-- `sameMeta` is reflexive. -/
theorem sameMeta_refl (s : QStat) : sameMeta s s := ⟨rfl, rfl, rfl, rfl⟩

/-- `sameMeta` is transitive. -/
theorem sameMeta_trans {s t u : QStat} (h1 : sameMeta s t) (h2 : sameMeta t u) :
    sameMeta s u :=
  ⟨h1.1.trans h2.1, h1.2.1.trans h2.2.1, h1.2.2.1.trans h2.2.2.1,
    h1.2.2.2.trans h2.2.2.2⟩

/-- Bumping the counters never changes the metadata. -/
theorem sameMeta_bumpStat (s : QStat) (a : AnswerRecord) :
    sameMeta (bumpStat s a) s := ⟨rfl, rfl, rfl, rfl⟩

/-- Keys after one insertion: the old keys plus the record's `questionId`. -/
theorem mem_keys_insertAnswer {stats : List (String × QStat)}
    {a : AnswerRecord} {qid : String} :
    qid ∈ (insertAnswer stats a).map Prod.fst ↔
      qid ∈ stats.map Prod.fst ∨ qid = a.questionId := by
  induction stats with
  | nil => simp [insertAnswer]
  | cons hd tl ih =>
    obtain ⟨k, s⟩ := hd
    by_cases hk : k = a.questionId
    · subst hk
      simp only [insertAnswer, if_true, List.map_cons, List.mem_cons]
      tauto
    · simp only [insertAnswer, List.map_cons, List.mem_cons]
      rw [if_neg hk]
      simp only [List.map_cons, List.mem_cons, ih]
      tauto

/-- After one insertion, every cell's metadata either comes from an existing
cell or (for a key that was absent) from the inserted record itself. -/
theorem mem_insertAnswer_meta {stats : List (String × QStat)}
    {a : AnswerRecord} {qid : String} {s : QStat}
    (h : (qid, s) ∈ insertAnswer stats a) :
    (∃ s0, (qid, s0) ∈ stats ∧ sameMeta s s0)
    ∨ (qid ∉ stats.map Prod.fst ∧ qid = a.questionId
        ∧ sameMeta s (initStat a)) := by
  induction stats with
  | nil =>
    simp only [insertAnswer, List.mem_singleton, Prod.mk.injEq] at h
    right
    refine ⟨by simp, h.1, ?_⟩
    rw [h.2]
    exact sameMeta_bumpStat _ _
  | cons hd tl ih =>
    obtain ⟨k, s1⟩ := hd
    by_cases hk : k = a.questionId
    · subst hk
      rw [insertAnswer, if_pos rfl] at h
      rcases List.mem_cons.mp h with heq | htl
      · obtain ⟨h1, h2⟩ := Prod.mk.injEq .. ▸ heq
        left
        exact ⟨s1, by simp [h1], h2 ▸ sameMeta_bumpStat _ _⟩
      · left
        exact ⟨s, List.mem_cons_of_mem _ htl, sameMeta_refl s⟩
    · rw [insertAnswer, if_neg hk] at h
      rcases List.mem_cons.mp h with heq | htl
      · obtain ⟨h1, h2⟩ := Prod.mk.injEq .. ▸ heq
        left
        exact ⟨s1, by simp [h1, h2], h2 ▸ sameMeta_refl s⟩
      · rcases ih htl with ⟨s0, hs0, hm⟩ | ⟨hnk, hq, hm⟩
        · exact Or.inl ⟨s0, List.mem_cons_of_mem _ hs0, hm⟩
        · right
          refine ⟨?_, hq, hm⟩
          simp only [List.map_cons, List.mem_cons]
          rintro (heq | hmem)
          · exact hk (heq ▸ hq)
          · exact hnk hmem

/-- Folding a history over the stats object: every cell's metadata either
comes from a pre-existing cell, or from the first record of the folded
history bearing that `questionId`. -/
theorem foldl_insertAnswer_meta :
    ∀ (history : List AnswerRecord) (stats : List (String × QStat))
      (qid : String) (s : QStat),
      (qid, s) ∈ history.foldl insertAnswer stats →
      (∃ s0, (qid, s0) ∈ stats ∧ sameMeta s s0)
      ∨ (qid ∉ stats.map Prod.fst
          ∧ ∃ a0, history.find? (fun a => a.questionId == qid) = some a0
              ∧ sameMeta s (initStat a0))
  | [], stats, qid, s, h => Or.inl ⟨s, h, sameMeta_refl s⟩
  | a :: t, stats, qid, s, h => by
    rcases foldl_insertAnswer_meta t (insertAnswer stats a) qid s h with
      ⟨s0, hs0, hm⟩ | ⟨hnk, a0, hfind, hm⟩
    · rcases mem_insertAnswer_meta hs0 with ⟨s1, hs1, hm1⟩ | ⟨hnk, hq, hm1⟩
      · exact Or.inl ⟨s1, hs1, sameMeta_trans hm hm1⟩
      · right
        refine ⟨hnk, a, ?_, sameMeta_trans hm hm1⟩
        rw [List.find?_cons_of_pos]
        simpa using hq.symm
    · have hnk' : qid ∉ stats.map Prod.fst ∧ qid ≠ a.questionId := by
        constructor
        · intro hmem
          exact hnk (mem_keys_insertAnswer.mpr (Or.inl hmem))
        · intro hq
          exact hnk (mem_keys_insertAnswer.mpr (Or.inr hq))
      right
      refine ⟨hnk'.1, a0, ?_, hm⟩
      rw [List.find?_cons_of_neg]
      · exact hfind
      · simpa using fun hq => hnk'.2 hq.symm

/-- Every stats cell holds the metadata of the FIRST history record with its
`questionId`, and an always-empty `options` list. -/
theorem groupStats_first_meta {history : List AnswerRecord} {qid : String}
    {s : QStat} (h : (qid, s) ∈ groupStats history) :
    ∃ a0, history.find? (fun a => a.questionId == qid) = some a0
      ∧ s.question = a0.question ∧ s.correctAnswers = a0.correctAnswers
      ∧ s.topic = jsOrNull a0.topic ∧ s.options = [] := by
  rcases foldl_insertAnswer_meta history [] qid s h with ⟨s0, hs0, _⟩ | ⟨_, a0, hfind, hm⟩
  · simp at hs0
  · exact ⟨a0, hfind, hm.1, hm.2.1, hm.2.2.2, hm.2.2.1⟩

/-- C6 counterexample: when `q1` reappears with edited metadata, the
weak-area output reports the FIRST-seen question text, correct answers and
topic (and an empty options list), not the most recently seen ones: on
`[firstRecord, editedRecord]` the single output entry carries `"OLD"` /
`["A"]` / `some "t1"` although the latest record carries `"NEW"` / `["B"]` /
`some "t2"`. -/
theorem weakAreas_last_write_cex :
    (weakAreas [firstRecord, editedRecord]).map
        (fun w => (w.question, w.correctAnswers, w.options, w.topic))
      = [("OLD", ["A"], [], some "t1")]
    ∧ editedRecord.question = "NEW"
    ∧ editedRecord.correctAnswers = ["B"] := by
  refine ⟨?_, rfl, rfl⟩
  have hg : groupStats [firstRecord, editedRecord] =
      [("q1", { question := "OLD", correctAnswers := ["A"], options := []
                topic := some "t1", wrong := 2, total := 2 })] := by
    decide
  have hq : weakQualifies
      { question := "OLD", correctAnswers := ["A"], options := []
        topic := some "t1", wrong := 2, total := 2 } = true := by
    simp only [weakQualifies, Bool.and_eq_true, decide_eq_true_eq]
    norm_num
  rw [weakAreas, weakEntries, hg]
  rw [List.filter_cons_of_pos (by exact hq)]
  simp [mkWeakArea]

/-- C6 as amended: when the same `questionId` appears in multiple historical
answer records, the Weak-Area Analyzer reports the FIRST-seen question text,
correct answers and (empty-string-collapsed) topic for that question —
first-write-wins, not last-write-wins — and its `options` list is always
empty. -/
theorem weakAreas_first_write (history : List AnswerRecord) :
    ∀ w ∈ weakAreas history,
      ∃ a0, history.find? (fun a => a.questionId == w.questionId) = some a0
        ∧ w.question = a0.question
        ∧ w.correctAnswers = a0.correctAnswers
        ∧ w.topic = jsOrNull a0.topic
        ∧ w.options = [] := by
  intro w hw
  have hw' : w ∈ weakEntries history := by
    have hsub := List.take_sublist 30 ((weakEntries history).mergeSort weakLE)
    exact List.mem_mergeSort.mp (hsub.mem hw)
  obtain ⟨p, hp, _, _, rfl⟩ := mem_weakEntries hw'
  obtain ⟨a0, hfind, h1, h2, h3, h4⟩ :=
    groupStats_first_meta (show (p.1, p.2) ∈ groupStats history from hp)
  exact ⟨a0, hfind, h1, h2, h3, h4⟩

/-- Witness for C6's amended theorem: on the concrete two-record history the
output entry's metadata is that of the first record. -/
theorem weakAreas_first_write_witness :
    (WeakArea.mk "q1" "OLD" ["A"] [] (some "t1") 2 (round2 (1 - (2 : ℚ) / 2)))
        ∈ weakAreas [firstRecord, editedRecord]
    ∧ ∃ a0, [firstRecord, editedRecord].find?
          (fun a => a.questionId == "q1") = some a0
        ∧ "OLD" = a0.question
        ∧ ["A"] = a0.correctAnswers
        ∧ some "t1" = jsOrNull a0.topic
        ∧ ([] : List String) = [] := by
  have hg : groupStats [firstRecord, editedRecord] =
      [("q1", { question := "OLD", correctAnswers := ["A"], options := []
                topic := some "t1", wrong := 2, total := 2 })] := by
    decide
  have hq : weakQualifies
      { question := "OLD", correctAnswers := ["A"], options := []
        topic := some "t1", wrong := 2, total := 2 } = true := by
    simp only [weakQualifies, Bool.and_eq_true, decide_eq_true_eq]
    norm_num
  have hmem : (WeakArea.mk "q1" "OLD" ["A"] [] (some "t1") 2
      (round2 (1 - (2 : ℚ) / 2))) ∈ weakAreas [firstRecord, editedRecord] := by
    rw [weakAreas, weakEntries, hg]
    rw [List.filter_cons_of_pos (by exact hq)]
    simp [mkWeakArea]
  exact ⟨hmem, weakAreas_first_write [firstRecord, editedRecord] _ hmem⟩

/-- A well-formed record normalises successfully (at any index). -/
theorem parseQuestion_ok_of_wf {q : RawQuestion}
    (h : rawWellFormed q = true) (i : ℕ) :
    ∃ pq, parseQuestion i q = .ok pq := by
  simp only [rawWellFormed, Bool.and_eq_true, Bool.not_eq_true',
    beq_eq_false_iff_ne, ne_eq, Option.isSome_iff_exists] at h
  obtain ⟨⟨hq, opts, hopts⟩, hres⟩ := h
  have hlen : ¬(resolveCorrect q).length = 0 := by
    intro h0
    have htrue : (resolveCorrect q).isEmpty = true :=
      List.isEmpty_iff_length_eq_zero.mpr h0
    rw [htrue] at hres
    cases hres
  have heq : parseQuestion i q =
      .ok { id := resolveId i q, question := q.question, options := opts
            correctAnswers := resolveCorrect q
            kind := if (resolveCorrect q).length > 1 then .multi else .single
            explanation := q.explanation, topic := q.topic } := by
    rw [parseQuestion, if_neg hq, hopts]
    dsimp only
    rw [if_neg hlen]
  exact ⟨_, heq⟩

/-- A malformed record fails with the message reporting its index. -/
theorem parseQuestion_error_of_not_wf {q : RawQuestion}
    (h : rawWellFormed q = false) (i : ℕ) :
    parseQuestion i q = .error (rawErrorMsg i q) := by
  by_cases hq : q.question = ""
  · rw [parseQuestion, if_pos hq, rawErrorMsg, if_pos (Or.inl hq)]
  · cases hopts : q.options with
    | none =>
      rw [parseQuestion, if_neg hq, hopts, rawErrorMsg, if_pos (Or.inr hopts)]
    | some opts =>
      have hres : (resolveCorrect q).length = 0 := by
        simp only [rawWellFormed, hopts, Bool.and_eq_true, Bool.not_eq_true',
          beq_eq_false_iff_ne, ne_eq] at h
        rcases Bool.and_eq_false_iff.mp h with h1 | h2
        · rcases Bool.and_eq_false_iff.mp h1 with h3 | h4
          · simp only [Bool.not_eq_false', beq_iff_eq] at h3
            exact absurd h3 hq
          · simp at h4
        · simp only [Bool.not_eq_false'] at h2
          exact List.isEmpty_iff_length_eq_zero.mp h2
      rw [parseQuestion, if_neg hq, hopts]
      dsimp only
      rw [if_pos hres, rawErrorMsg, if_neg (by simp [hq, hopts])]

/-- A successful batch produces exactly one output per input record. -/
theorem parseQuestionsFrom_ok_length :
    ∀ (raw : List RawQuestion) (i : ℕ) (qs : List Question),
      parseQuestionsFrom i raw = .ok qs → qs.length = raw.length
  | [], _, qs, h => by
    simp only [parseQuestionsFrom] at h
    cases h
    rfl
  | q :: rest, i, qs, h => by
    rw [parseQuestionsFrom] at h
    cases hpq : parseQuestion i q with
    | error e => rw [hpq] at h; simp at h
    | ok pq =>
      rw [hpq] at h
      cases hrest : parseQuestionsFrom (i + 1) rest with
      | error e => rw [hrest] at h; simp at h
      | ok rest' =>
        rw [hrest] at h
        simp only [Except.ok.injEq] at h
        subst h
        simp [parseQuestionsFrom_ok_length rest (i + 1) rest' hrest]

/-- The batch succeeds from any start index iff every record is
well-formed. -/
theorem parseQuestionsFrom_ok_iff :
    ∀ (raw : List RawQuestion) (i : ℕ),
      (∃ qs, parseQuestionsFrom i raw = .ok qs) ↔
        ∀ q ∈ raw, rawWellFormed q = true
  | [], i => by simp [parseQuestionsFrom]
  | q :: rest, i => by
    constructor
    · rintro ⟨qs, h⟩
      rw [parseQuestionsFrom] at h
      cases hpq : parseQuestion i q with
      | error e => rw [hpq] at h; simp at h
      | ok pq =>
        rw [hpq] at h
        cases hrest : parseQuestionsFrom (i + 1) rest with
        | error e => rw [hrest] at h; simp at h
        | ok rest' =>
          intro r hr
          rcases List.mem_cons.mp hr with rfl | hr'
          · by_contra hwf
            rw [parseQuestion_error_of_not_wf
              (Bool.not_eq_true _ ▸ hwf) i] at hpq
            cases hpq
          · exact (parseQuestionsFrom_ok_iff rest (i + 1)).mp ⟨rest', hrest⟩ r hr'
    · intro hwf
      obtain ⟨pq, hpq⟩ := parseQuestion_ok_of_wf (hwf q (by simp)) i
      obtain ⟨rest', hrest⟩ := (parseQuestionsFrom_ok_iff rest (i + 1)).mpr
        (fun r hr => hwf r (List.mem_cons_of_mem _ hr))
      exact ⟨pq :: rest', by rw [parseQuestionsFrom, hpq, hrest]⟩

/-- The first malformed record aborts the batch with its own index's error
message. -/
theorem parseQuestionsFrom_error :
    ∀ (pre : List RawQuestion) (i : ℕ) (q : RawQuestion)
      (post : List RawQuestion),
      (∀ p ∈ pre, rawWellFormed p = true) → rawWellFormed q = false →
      parseQuestionsFrom i (pre ++ q :: post)
        = .error (rawErrorMsg (i + pre.length) q)
  | [], i, q, post, _, hq => by
    rw [List.nil_append, parseQuestionsFrom,
      parseQuestion_error_of_not_wf hq i]
    rfl
  | p :: pre, i, q, post, hpre, hq => by
    obtain ⟨pp, hpp⟩ := parseQuestion_ok_of_wf (hpre p (by simp)) i
    rw [List.cons_append, parseQuestionsFrom, hpp,
      parseQuestionsFrom_error pre (i + 1) q post
        (fun r hr => hpre r (List.mem_cons_of_mem _ hr)) hq]
    dsimp only
    rw [List.length_cons]
    ring_nf

/-- C7 counterexample: a record whose `options` is an EMPTY array is accepted
by the normaliser (the source only checks that `options` is present and is an
array), refuting the claim that a non-empty options sequence is required. -/
theorem parseQuestions_empty_options_cex :
    parseQuestions
      [{ id := none, question := "Q", options := some []
         correctAnswer := some "A", correctAnswers := none
         explanation := none, topic := none }]
      = .ok [{ id := "q_1", question := "Q", options := []
               correctAnswers := ["A"], kind := .single
               explanation := none, topic := none }] := rfl

/-- C7 as amended: the normaliser accepts a batch iff every record has
non-empty question text, an `options` field that is an array (possibly
empty), and a resolvable non-empty correct-answer set; on success it emits
exactly one question per record (no partial output); and when the records
before index `i` are well-formed and the record at `i` is malformed, the
whole batch fails with the error message naming index `i`. -/
theorem parseQuestions_spec (raw : List RawQuestion) :
    ((∃ qs, parseQuestions raw = .ok qs) ↔ ∀ q ∈ raw, rawWellFormed q = true)
    ∧ (∀ qs, parseQuestions raw = .ok qs → qs.length = raw.length)
    ∧ (∀ pre q post, raw = pre ++ q :: post →
        (∀ p ∈ pre, rawWellFormed p = true) → rawWellFormed q = false →
        parseQuestions raw = .error (rawErrorMsg pre.length q)) := by
  refine ⟨parseQuestionsFrom_ok_iff raw 0, ?_, ?_⟩
  · exact fun qs h => parseQuestionsFrom_ok_length raw 0 qs h
  · intro pre q post hraw hpre hq
    rw [parseQuestions, hraw,
      parseQuestionsFrom_error pre 0 q post hpre hq]
    rw [Nat.zero_add]

/-- Witness for C7's amended theorem: a batch whose second record lacks any
correct answer fails whole with the message naming that record. -/
theorem parseQuestions_spec_witness :
    ([goodRaw, badRaw] : List RawQuestion) = [goodRaw] ++ badRaw :: []
    ∧ (∀ p ∈ [goodRaw], rawWellFormed p = true)
    ∧ rawWellFormed badRaw = false
    ∧ parseQuestions [goodRaw, badRaw] = .error (rawErrorMsg 1 badRaw) :=
  ⟨rfl, by decide, by decide,
    (parseQuestions_spec [goodRaw, badRaw]).2.2 [goodRaw] badRaw []
      rfl (by decide) (by decide)⟩

/-- The dashboard's `reduce((acc, h) => acc + f(h), c)` computes `c` plus the
sum of the projections. -/
theorem foldl_add_eq_sum (f : HistoryItem → ℚ) :
    ∀ (l : List HistoryItem) (c : ℚ),
      l.foldl (fun acc h => acc + f h) c = c + (l.map f).sum
  | [], c => by simp
  | h :: t, c => by
    rw [List.foldl_cons, foldl_add_eq_sum f t (c + f h)]
    simp only [List.map_cons, List.sum_cons]
    ring

/-- The running maximum never drops below its seed. -/
theorem le_foldl_max :
    ∀ (l : List HistoryItem) (m : ℚ),
      m ≤ l.foldl (fun acc x => max acc x.percentage) m
  | [], _ => le_refl _
  | h :: t, m =>
    le_trans (le_max_left m h.percentage) (le_foldl_max t (max m h.percentage))

/-- The running maximum dominates every element. -/
theorem mem_le_foldl_max :
    ∀ (l : List HistoryItem) (m : ℚ), ∀ x ∈ l,
      x.percentage ≤ l.foldl (fun acc y => max acc y.percentage) m
  | h :: t, m, x, hx => by
    rcases List.mem_cons.mp hx with rfl | hx'
    · exact le_trans (le_max_right m x.percentage)
        (le_foldl_max t (max m x.percentage))
    · exact mem_le_foldl_max t (max m h.percentage) x hx'

/-- The running maximum is the seed or some element's percentage. -/
theorem foldl_max_mem :
    ∀ (l : List HistoryItem) (m : ℚ),
      l.foldl (fun acc y => max acc y.percentage) m = m
      ∨ ∃ x ∈ l, l.foldl (fun acc y => max acc y.percentage) m = x.percentage
  | [], m => Or.inl rfl
  | h :: t, m => by
    rw [List.foldl_cons]
    rcases foldl_max_mem t (max m h.percentage) with heq | ⟨x, hx, heq⟩
    · rcases max_choice m h.percentage with hm | hm
      · exact Or.inl (heq.trans hm)
      · exact Or.inr ⟨h, by simp, heq.trans hm⟩
    · exact Or.inr ⟨x, List.mem_cons_of_mem _ hx, heq⟩

/-- C8: the dashboard aggregation returns the exam count, the rounded mean
percentage (0 on an empty history, with no division), the sum of times, and
a `bestScore` that dominates every percentage and is attained by some entry
(0 when the history is empty). -/
theorem dashboard_stats_spec (history : List HistoryItem) :
    (dashboardStats history).totalExams = history.length
    ∧ (history = [] → dashboardStats history
        = { totalExams := 0, avgScore := 0, bestScore := 0, totalTime := 0 })
    ∧ (history ≠ [] → (dashboardStats history).avgScore
        = round ((history.map (·.percentage)).sum / (history.length : ℚ)))
    ∧ (dashboardStats history).totalTime = (history.map (·.timeTaken)).sum
    ∧ (∀ h ∈ history, h.percentage ≤ (dashboardStats history).bestScore)
    ∧ (history ≠ [] →
        ∃ h ∈ history, (dashboardStats history).bestScore = h.percentage) := by
  refine ⟨rfl, ?_, ?_, ?_, ?_, ?_⟩
  · rintro rfl
    rfl
  · intro hne
    have hlen : history.length ≠ 0 := fun h => hne (List.length_eq_zero.mp h)
    show (if history.length = 0 then 0
      else round ((history.foldl (fun acc h => acc + h.percentage) 0)
        / (history.length : ℚ))) = _
    rw [if_neg hlen, foldl_add_eq_sum (·.percentage) history 0, zero_add]
  · show history.foldl (fun acc h => acc + h.timeTaken) 0 = _
    rw [foldl_add_eq_sum (·.timeTaken) history 0, zero_add]
  · intro h hmem
    cases history with
    | nil => cases hmem
    | cons hd tl =>
      show h.percentage ≤ tl.foldl (fun m x => max m x.percentage) hd.percentage
      rcases List.mem_cons.mp hmem with rfl | hmem'
      · exact le_foldl_max tl h.percentage
      · exact mem_le_foldl_max tl hd.percentage h hmem'
  · intro hne
    cases history with
    | nil => exact absurd rfl hne
    | cons hd tl =>
      show ∃ h ∈ hd :: tl,
        tl.foldl (fun m x => max m x.percentage) hd.percentage = h.percentage
      rcases foldl_max_mem tl hd.percentage with heq | ⟨x, hx, heq⟩
      · exact ⟨hd, by simp, heq⟩
      · exact ⟨x, List.mem_cons_of_mem _ hx, heq⟩

/-- Witness for C8 at a two-entry history: the average is the rounded mean
and the best score is attained. -/
theorem dashboard_stats_spec_witness :
    exampleDashHistory ≠ []
    ∧ (dashboardStats exampleDashHistory).avgScore
        = round ((exampleDashHistory.map (·.percentage)).sum
            / (exampleDashHistory.length : ℚ))
    ∧ ∃ h ∈ exampleDashHistory,
        (dashboardStats exampleDashHistory).bestScore = h.percentage := by
  have hne : exampleDashHistory ≠ [] := by simp [exampleDashHistory]
  exact ⟨hne, (dashboard_stats_spec exampleDashHistory).2.2.1 hne,
    (dashboard_stats_spec exampleDashHistory).2.2.2.2.2 hne⟩

/-- C9 counterexample: a submission whose nickname has 31 characters is
accepted and stored by the score route — no upper length bound is enforced
on the storage path, refuting the claimed 1-30 character invariant. -/
theorem leaderboard_nickname_length_cex :
    longNickname.length = 31
    ∧ postScore [] { nickname := longNickname, score := some 1, total := 1
                     percentage := 100, timeTaken := 10 }
      = .ok ([{ nickname := longNickname, score := 1, total := 1
                percentage := 100, timeTaken := 10 }],
             [{ nickname := longNickname, score := 1, total := 1
                percentage := 100, timeTaken := 10 }]) := by
  constructor
  · decide
  · have hnn : ¬(longNickname = "") := by decide
    simp [postScore, hnn, getLeaderboard, rankLeaderboard]

/-- C9 as amended: every entry accepted into a shared exam's stored list has
a NON-EMPTY nickname (the route rejects falsy nicknames), but no upper
length bound is enforced on storage — the 30-character cap exists only as a
client-side input attribute. -/
theorem leaderboard_nickname_nonempty (stored : List LeaderboardEntry)
    (req : ScoreRequest) (out : List LeaderboardEntry × List LeaderboardEntry)
    (hok : postScore stored req = .ok out)
    (hinv : ∀ e ∈ stored, e.nickname ≠ "") :
    (∀ e ∈ out.1, e.nickname ≠ "") ∧ req.nickname ≠ "" := by
  by_cases hn : req.nickname = ""
  · rw [postScore, if_pos hn] at hok
    cases hok
  · refine ⟨?_, hn⟩
    rw [postScore, if_neg hn] at hok
    cases hs : req.score with
    | none => rw [hs] at hok; cases hok
    | some s =>
      rw [hs] at hok
      cases hok
      intro e he
      rcases List.mem_append.mp he with hmem | hmem
      · exact hinv e hmem
      · rcases List.mem_singleton.mp hmem with rfl
        exact hn

/-- Witness for C9's amended theorem at the 31-character-nickname
submission: the stored entry's nickname is non-empty. -/
theorem leaderboard_nickname_nonempty_witness :
    (∀ e ∈ ([{ nickname := longNickname, score := 1, total := 1
               percentage := 100, timeTaken := 10 }] : List LeaderboardEntry),
        e.nickname ≠ "")
    ∧ longNickname ≠ "" := by
  have hnn : ¬(longNickname = "") := by decide
  have hok : postScore [] { nickname := longNickname, score := some 1
                            total := 1, percentage := 100, timeTaken := 10 }
      = .ok ([{ nickname := longNickname, score := 1, total := 1
                percentage := 100, timeTaken := 10 }],
             [{ nickname := longNickname, score := 1, total := 1
                percentage := 100, timeTaken := 10 }]) := by
    simp [postScore, hnn, getLeaderboard, rankLeaderboard]
  exact leaderboard_nickname_nonempty []
    { nickname := longNickname, score := some 1
      total := 1, percentage := 100, timeTaken := 10 }
    ([{ nickname := longNickname, score := 1, total := 1
        percentage := 100, timeTaken := 10 }],
     [{ nickname := longNickname, score := 1, total := 1
        percentage := 100, timeTaken := 10 }])
    hok (by simp)

/-- `List.contains` is false exactly on non-members. -/
theorem contains_false_iff {l : List String} {a : String} :
    l.contains a = false ↔ a ∉ l := by
  rw [Bool.eq_false_iff]
  exact not_congr contains_true_iff

/-- Setting another key does not change a lookup. -/
theorem mapGet_mapSet_ne {α : Type} (m : List (String × α))
    (k k' : String) (v : α) (h : k ≠ k') :
    mapGet (mapSet m k' v) k = mapGet m k := by
  have hbeq : ¬(k' = k) := fun he => h he.symm
  induction m with
  | nil =>
    rw [mapSet, mapGet, mapGet, List.find?_nil,
      List.find?_cons_of_neg _ (by simpa using hbeq), List.find?_nil]
  | cons hd tl ih =>
    obtain ⟨k0, v0⟩ := hd
    by_cases hk0 : k0 = k'
    · subst hk0
      rw [mapSet, if_pos rfl, mapGet, mapGet,
        List.find?_cons_of_neg _ (by simpa using hbeq),
        List.find?_cons_of_neg _ (by simpa using hbeq)]
    · rw [mapSet, if_neg hk0, mapGet, mapGet]
      by_cases hk : k0 = k
      · subst hk
        rw [List.find?_cons_of_pos _ (by simp),
          List.find?_cons_of_pos _ (by simp)]
      · rw [List.find?_cons_of_neg _ (by simpa using hk),
          List.find?_cons_of_neg _ (by simpa using hk)]
        exact ih

/-- One step by an event that does not touch `qid` preserves the
"never interacted with `qid`" state. -/
theorem sessionStep_untouched {qid : String} {st : SessionState}
    {ev : SessionEvent} (hev : touches qid ev = false)
    (h : mapGet st.answers qid = none
      ∧ mapGet st.questionTimes qid = none
      ∧ st.flagged.contains qid = false) :
    mapGet (sessionStep st ev).answers qid = none
    ∧ mapGet (sessionStep st ev).questionTimes qid = none
    ∧ (sessionStep st ev).flagged.contains qid = false := by
  obtain ⟨h1, h2, h3⟩ := h
  cases ev with
  | select k sel =>
    have hk : qid ≠ k := by
      simp only [touches, beq_eq_false_iff_ne, ne_eq] at hev
      exact fun he => hev he.symm
    exact ⟨(mapGet_mapSet_ne _ _ _ _ hk).trans h1, h2, h3⟩
  | flushTime k e =>
    have hk : qid ≠ k := by
      simp only [touches, beq_eq_false_iff_ne, ne_eq] at hev
      exact fun he => hev he.symm
    rw [sessionStep]
    by_cases he : 0 < e
    · rw [if_pos he]
      exact ⟨h1, (mapGet_mapSet_ne _ _ _ _ hk).trans h2, h3⟩
    · rw [if_neg he]
      exact ⟨h1, h2, h3⟩
  | toggleFlag k =>
    have hk : qid ≠ k := by
      simp only [touches, beq_eq_false_iff_ne, ne_eq] at hev
      exact fun he => hev he.symm
    rw [sessionStep]
    by_cases hc : st.flagged.contains k
    · rw [if_pos hc]
      refine ⟨h1, h2, contains_false_iff.mpr ?_⟩
      intro hmem
      exact absurd (List.mem_of_mem_filter hmem) (contains_false_iff.mp h3)
    · rw [if_neg hc]
      refine ⟨h1, h2, contains_false_iff.mpr ?_⟩
      intro hmem
      rcases List.mem_append.mp hmem with hmem' | hmem'
      · exact absurd hmem' (contains_false_iff.mp h3)
      · exact hk (List.mem_singleton.mp hmem')

/-- Folding untouched events preserves the untouched state. -/
theorem foldl_sessionStep_untouched :
    ∀ (events : List SessionEvent) (st : SessionState) (qid : String),
      (∀ ev ∈ events, touches qid ev = false) →
      (mapGet st.answers qid = none
        ∧ mapGet st.questionTimes qid = none
        ∧ st.flagged.contains qid = false) →
      mapGet (events.foldl sessionStep st).answers qid = none
      ∧ mapGet (events.foldl sessionStep st).questionTimes qid = none
      ∧ (events.foldl sessionStep st).flagged.contains qid = false
  | [], _, _, _, h => h
  | ev :: rest, st, qid, hev, h =>
    foldl_sessionStep_untouched rest (sessionStep st ev) qid
      (fun e he => hev e (List.mem_cons_of_mem _ he))
      (sessionStep_untouched (hev ev (by simp)) h)

/-- C10: for every exam and every sequence of in-session interactions, the
submitted payload has exactly one record per exam question, in exam order
with matching `questionId`; and a question never touched by any interaction
yields the default record: empty selection, zero time, unflagged. -/
theorem handleSubmit_spec (questions : List Question)
    (events : List SessionEvent) :
    (handleSubmit questions (runSession events)).length = questions.length
    ∧ (∀ (i : ℕ) (hi : i < questions.length)
        (hi2 : i < (handleSubmit questions (runSession events)).length),
        ((handleSubmit questions (runSession events)).get ⟨i, hi2⟩).questionId
          = (questions.get ⟨i, hi⟩).id
        ∧ ((∀ ev ∈ events, touches (questions.get ⟨i, hi⟩).id ev = false) →
            (handleSubmit questions (runSession events)).get ⟨i, hi2⟩
              = { questionId := (questions.get ⟨i, hi⟩).id
                  selectedAnswers := [], timeSpent := 0, flagged := false })) := by
  have hlen : (handleSubmit questions (runSession events)).length
      = questions.length := by
    simp [handleSubmit]
  refine ⟨hlen, ?_⟩
  intro i hi hi2
  have hget : (handleSubmit questions (runSession events)).get ⟨i, hi2⟩
      = { questionId := (questions.get ⟨i, hi⟩).id
          selectedAnswers :=
            (mapGet (runSession events).answers (questions.get ⟨i, hi⟩).id).getD []
          timeSpent :=
            (mapGet (runSession events).questionTimes
              (questions.get ⟨i, hi⟩).id).getD 0
          flagged :=
            (runSession events).flagged.contains (questions.get ⟨i, hi⟩).id } := by
    simp [handleSubmit, List.get_eq_getElem, List.getElem_map]
  refine ⟨by rw [hget], ?_⟩
  intro huntouched
  obtain ⟨h1, h2, h3⟩ := foldl_sessionStep_untouched events
    { answers := [], questionTimes := [], flagged := [] }
    (questions.get ⟨i, hi⟩).id huntouched ⟨rfl, rfl, rfl⟩
  have hr : runSession events = events.foldl sessionStep
      { answers := [], questionTimes := [], flagged := [] } := rfl
  rw [hget, hr, h1, h2, h3]
  rfl

/-- Witness for C10: in the two-question scenario exam, after interactions
touching only `q1`, the submitted record for `q2` (index 1) is the default
empty record. -/
theorem handleSubmit_spec_witness :
    (∀ ev ∈ exampleEvents,
      touches (scenarioQuestions.get ⟨1, by decide⟩).id ev = false)
    ∧ (handleSubmit scenarioQuestions (runSession exampleEvents)).get
        ⟨1, by decide⟩
      = { questionId := (scenarioQuestions.get ⟨1, by decide⟩).id
          selectedAnswers := [], timeSpent := 0, flagged := false } :=
  ⟨by decide,
    ((handleSubmit_spec scenarioQuestions exampleEvents).2 1 (by decide)
      (by decide)).2 (by decide)⟩

end ExamPrep
